import Mathlib

/-!
Verification of the version-gated ingestion coordinator of the
end-to-end AWS data pipeline repository.

The Python strings manipulated by the coordinator are modelled as
`List Char`.  Each helper below embeds one Python string operation used
by `first_lambda_function.py` or `delta_load.py`:

* `pySplitChar sep s`      — `s.split(sep)` (split on every occurrence);
* `pySplitOnceP p s`       — `s.split(sep, 1)` (split on the first match);
* `pyRsplitBase s`         — `s.rsplit('.', 1)[0]`;
* `noUnd s`                — `s.replace('_', '')`;
* `replaceCsv s`           — `s.replace(".csv", "")`;
* `replaceS3 s`            — `s.replace("s3://", "")`;
* `pyInt s`                — `int(s)` on an ASCII string (whitespace,
  optional sign, digit groups separated by single underscores);
* `pyIsDigitStr s`         — `s.isdigit()` on an ASCII string;
* `pyFloatOk s`            — whether `float(s)` succeeds on an ASCII string;
* `natStr`, `intStr`       — `str(n)` for an integer.
-/

def isPyDigit (c : Char) : Bool :=
  decide (48 ≤ c.toNat) && decide (c.toNat ≤ 57)

def pyWS (c : Char) : Bool :=
  decide (c = ' ') || decide (c = '\t') || decide (c = '\n') || decide (c = '\r') ||
    decide (c = '\x0B') || decide (c = '\x0C')

def stripWS (s : List Char) : List Char :=
  ((s.dropWhile pyWS).reverse.dropWhile pyWS).reverse

def digToNat (c : Char) : Nat := c.toNat - 48

def digitsNat (s : List Char) : Nat :=
  s.foldl (fun a c => a * 10 + digToNat c) 0

def noUnd (s : List Char) : List Char :=
  s.filter (fun c => decide (c ≠ '_'))

/-- Tail of a Python integer literal body: digits with single underscores
allowed only between digits. -/
def digitsTailOk : List Char → Bool
  | [] => true
  | c :: cs =>
    if c = '_' then
      match cs with
      | [] => false
      | d :: ds => isPyDigit d && digitsTailOk ds
    else isPyDigit c && digitsTailOk cs

/-- Body of a Python integer literal: nonempty, starts with a digit,
underscores only between digits. -/
def okDigits : List Char → Bool
  | [] => false
  | c :: cs => isPyDigit c && digitsTailOk cs

/-- Python `int(s)` for an ASCII string: optional surrounding whitespace,
optional sign, then a digit body.  `none` models the `ValueError`. -/
def pyInt (s : List Char) : Option Int :=
  match stripWS s with
  | [] => none
  | c :: r =>
    if c = '+' then
      if okDigits r then some ((digitsNat (noUnd r) : Nat) : Int) else none
    else if c = '-' then
      if okDigits r then some (-((digitsNat (noUnd r) : Nat) : Int)) else none
    else if okDigits (c :: r) then some ((digitsNat (noUnd (c :: r)) : Nat) : Int)
    else none

/-- Python `s.isdigit()` for an ASCII string. -/
def pyIsDigitStr (s : List Char) : Bool :=
  decide (s ≠ []) && s.all isPyDigit

/-- Python `s.split(sep)`: always returns a nonempty list of groups. -/
def pySplitChar (sep : Char) : List Char → List (List Char)
  | [] => [[]]
  | c :: cs =>
    match pySplitChar sep cs with
    | [] => [[]]
    | g :: gs => if c = sep then [] :: g :: gs else (c :: g) :: gs

/-- Python `s.split(sep, 1)` generalised to a predicate: the part before the
first matching character, and (when one exists) the part after it. -/
def pySplitOnceP (p : Char → Bool) : List Char → List Char × Option (List Char)
  | [] => ([], none)
  | c :: cs =>
    if p c then ([], some cs)
    else
      match pySplitOnceP p cs with
      | (a, b) => (c :: a, b)

def pySplitOnce (sep : Char) (s : List Char) : List Char × Option (List Char) :=
  pySplitOnceP (fun c => decide (c = sep)) s

/-- Drop everything up to and including the first occurrence of `sep`;
`none` when `sep` does not occur. -/
def dropThroughFirst (sep : Char) : List Char → Option (List Char)
  | [] => none
  | c :: cs => if c = sep then some cs else dropThroughFirst sep cs

/-- Python `s.rsplit('.', 1)[0]`: everything before the last dot, the whole
string when there is no dot. -/
def pyRsplitBase (s : List Char) : List Char :=
  match dropThroughFirst '.' s.reverse with
  | some r => r.reverse
  | none => s

/-- Python `s.replace(".csv", "")`: remove every (non-overlapping,
left-to-right) occurrence of `.csv`. -/
def replaceCsv : List Char → List Char
  | [] => []
  | c :: rest =>
    let keep := c :: replaceCsv rest
    if c = '.' then
      match rest with
      | c2 :: c3 :: c4 :: r2 =>
        if c2 = 'c' ∧ c3 = 's' ∧ c4 = 'v' then replaceCsv r2 else keep
      | _ => keep
    else keep

/-- Python `s.replace("s3://", "")`: remove every occurrence of `s3://`. -/
def replaceS3 : List Char → List Char
  | [] => []
  | c :: rest =>
    let keep := c :: replaceS3 rest
    match rest with
    | c2 :: c3 :: c4 :: c5 :: r2 =>
      if c = 's' ∧ c2 = '3' ∧ c3 = ':' ∧ c4 = '/' ∧ c5 = '/' then replaceS3 r2
      else keep
    | _ => keep

/-- Does `pat` occur at the start of `s`? -/
def listStarts : List Char → List Char → Bool
  | [], _ => true
  | _ :: _, [] => false
  | p :: ps, c :: cs => decide (p = c) && listStarts ps cs

/-- Does `pat` occur anywhere inside `s`? -/
def occursIn (pat : List Char) : List Char → Bool
  | [] => listStarts pat []
  | c :: cs => listStarts pat (c :: cs) || occursIn pat cs

def digitChar (n : Nat) : Char := Char.ofNat (48 + n)

/-- Decimal digits of `n`, fuel-based so that it reduces in the kernel. -/
def natStrAux : Nat → Nat → List Char
  | 0, _ => []
  | fuel + 1, n => if n < 10 then [digitChar n] else natStrAux fuel (n / 10) ++ [digitChar (n % 10)]

/-- Python `str(n)` for a natural number. -/
def natStr (n : Nat) : List Char := natStrAux (n + 1) n

/-- Python `str(i)` for an integer. -/
def intStr : Int → List Char
  | Int.ofNat n => natStr n
  | Int.negSucc n => '-' :: natStr (n + 1)

/-- Keep rows seen for the first time, dropping later duplicates
(pandas `drop_duplicates` keeps the first occurrence). -/
def dropDupAux {α : Type} [DecidableEq α] : List α → List α → List α
  | _, [] => []
  | seen, x :: xs => if x ∈ seen then dropDupAux seen xs else x :: dropDupAux (x :: seen) xs

def dropDupFirst {α : Type} [DecidableEq α] (l : List α) : List α := dropDupAux [] l

/-!
Schema sniffer (`analyze_database_file` in `first_lambda_function.py`):
classify the sample value of each column — `isdigit` gives `INTEGER`,
otherwise a successful `float(...)` gives `FLOAT`, otherwise
`VARCHAR(255)`.
-/

inductive SqlType : Type
  | INTEGER : SqlType
  | FLOAT : SqlType
  | VARCHAR255 : SqlType
deriving DecidableEq

/-- The mantissa part of a Python float literal: `D`, `D.`, `D.D` or `.D`
where `D` is a digit body. -/
def mantOk (m : List Char) : Bool :=
  match pySplitOnce '.' m with
  | (a, none) => okDigits a
  | (a, some b) => if a = [] then okDigits b else okDigits a && (decide (b = []) || okDigits b)

/-- The exponent part of a Python float literal: optional sign, digit body. -/
def expOk : List Char → Bool
  | [] => false
  | c :: r => if c = '+' ∨ c = '-' then okDigits r else okDigits (c :: r)

/-- Is the string (case-insensitively) `inf`, `infinity` or `nan`? -/
def isInfNan (s : List Char) : Bool :=
  decide (s.map Char.toLower = "inf".data) || decide (s.map Char.toLower = "infinity".data) ||
    decide (s.map Char.toLower = "nan".data)

/-- Does Python `float(s)` succeed on the ASCII string `s`? -/
def pyFloatOk (s : List Char) : Bool :=
  match stripWS s with
  | [] => false
  | c :: r =>
    let u := if c = '+' ∨ c = '-' then r else c :: r
    (match pySplitOnceP (fun d => decide (d = 'e') || decide (d = 'E')) u with
     | (a, none) => mantOk a
     | (a, some b) => mantOk a && expOk b) ||
      isInfNan u

/-- Type inferred for one column from its sample value
(`analyze_database_file`, lines 374-381). -/
def inferType (v : List Char) : SqlType :=
  if pyIsDigitStr v = true then SqlType.INTEGER
  else if pyFloatOk v = true then SqlType.FLOAT
  else SqlType.VARCHAR255

/-- `analyze_database_file`: zip the header row with the first data row and
classify each sample value (Python `zip` truncates to the shorter row). -/
def analyzeDatabaseFile (headers firstRow : List (List Char)) : List (List Char × SqlType) :=
  (headers.zip firstRow).map (fun p => (p.1, inferType p.2))

/-!
Load executor (`upload_to_rds` in `delta_load.py`).  A table is a list of
rows; the uniqueness constraint of the target table is an arbitrary key
function `κ`.  `INSERT ... ON DUPLICATE KEY UPDATE col=VALUES(col)` for
every column replaces the conflicting row by the incoming row, otherwise
the incoming row is appended.  Each row is an independent committed
statement; `bad` says which rows raise on execution, and a failing row is
rolled back (only its own statement) and reported, aborting the rest.
-/

def upsertRow {α β : Type} [DecidableEq β] (κ : α → β) (t : List α) (r : α) : List α :=
  if ∃ x ∈ t, κ x = κ r then t.map (fun x => if κ x = κ r then r else x) else t ++ [r]

def applyRows {α β : Type} [DecidableEq β] (κ : α → β) (t : List α) (rs : List α) : List α :=
  rs.foldl (upsertRow κ) t

def uploadToRds {α β : Type} [DecidableEq β] (κ : α → β) (bad : α → Bool) :
    List α → List α → List α × Option α
  | t, [] => (t, none)
  | t, r :: rs => if bad r = true then (t, some r) else uploadToRds κ bad (upsertRow κ t r) rs

/-!
Version tracker and ingestion coordinator (`lambda_handler` in
`first_lambda_function.py`, lines 347-429, with `process_new_file` and
`trigger_step_function`).  The DynamoDB tracking table holds one item
keyed `database_list`; that item maps each base name to a nested map that
may hold a `folder_name` string.  `Tracker = none` models the absent
item; an entry value of `none` models a nested map without `folder_name`.
-/

abbrev EntryMap := List (List Char × Option (List Char))

abbrev Tracker := Option EntryMap

def lookupEntry (m : EntryMap) (b : List Char) : Option (Option (List Char)) :=
  (m.find? (fun p => decide (p.1 = b))).map (fun p => p.2)

def getEntry (t : Tracker) (b : List Char) : Option (Option (List Char)) :=
  match t with
  | none => none
  | some m => lookupEntry m b

/-- Replace the value stored for key `b`, or append a new entry. -/
def setEntry (m : EntryMap) (b : List Char) (v : Option (List Char)) : EntryMap :=
  if m.any (fun p => decide (p.1 = b)) then
    m.map (fun p => if p.1 = b then (b, v) else p)
  else m ++ [(b, v)]

inductive Outcome : Type
  | processed : Outcome
  | noAction : Outcome
  | parseError : Outcome
  | trackerError : Outcome
deriving DecidableEq

/-- HTTP status code of each handler response body. -/
def Outcome.statusCode : Outcome → Nat
  | .processed => 200
  | .noAction => 200
  | .parseError => 400
  | .trackerError => 500

structure Dispatch : Type where
  groupId : List Char
  dedupId : List Char
  path : List Char
  bucket : List Char
  key : List Char
deriving DecidableEq

/-- `process_new_file` (lines 432-466): the SQS message for an accepted
arrival.  `MessageGroupId = f"{base_name}-{timestamp}"`,
`MessageDeduplicationId = base_name + str(timestamp)`, and the body
carries the `s3://bucket/key` path plus bucket and key. -/
def processNewFile (bucket key base : List Char) (ts : Int) : Dispatch :=
  { groupId := base ++ '-' :: intStr ts
    dedupId := base ++ intStr ts
    path := "s3://".data ++ bucket ++ '/' :: key
    bucket := bucket
    key := key }

def lastSeg (s : List Char) : List Char := (pySplitChar '/' s).getLastD []

/-- `trigger_step_function` (lines 468-483): one Step Functions execution,
named `Execution-{file_path.split('/')[-1]}-{uuid}`, whose input carries
the file path. -/
def triggerStepFunction (path uuid : List Char) : List Char × List Char :=
  ("Execution-".data ++ lastSeg path ++ '-' :: uuid, path)

/-- `lambda_handler` (lines 347-429): parse the object key into exactly two
`/`-separated segments, derive the base name and the integer timestamp,
consult the tracker, and accept (dispatch) or reject.  Parse failures are
the 400 response; a present entry without a truthy `folder_name`, or a
stored folder name that `int()` cannot parse, is caught by the outer
`except` as the 500 response; an older-or-equal timestamp is the normal
`No new action taken` 200 response. -/
def lambdaHandler (tracker : Tracker) (bucket key : List Char) : Outcome × Option Dispatch :=
  match pySplitChar '/' key with
  | [folderName, fileName] =>
    match pyInt folderName with
    | none => (Outcome.parseError, none)
    | some ts =>
      match getEntry tracker (pyRsplitBase fileName) with
      | none => (Outcome.processed, some (processNewFile bucket key (pyRsplitBase fileName) ts))
      | some none => (Outcome.trackerError, none)
      | some (some folder) =>
        if folder = [] then (Outcome.trackerError, none)
        else
          match pyInt (noUnd folder) with
          | none => (Outcome.trackerError, none)
          | some existing =>
            if existing < ts then
              (Outcome.processed, some (processNewFile bucket key (pyRsplitBase fileName) ts))
            else (Outcome.noAction, none)
  | _ => (Outcome.parseError, none)

/-!
Downstream load job (`delta_load.py`).  A row of the cleaned dataframe is
a list of cell values; `none` is a null cell.  The system state gathers
the only shared mutable resources: the tracking item, the FIFO queue (with
its deduplication window), the started Step Functions executions, the
catalog of existing RDS tables and the content of the target table.
-/

abbrev Row := List (Option (List Char))

abbrev RKey := List (Option (List Char))

structure Sys : Type where
  tracker : Tracker
  queue : List Dispatch
  execs : List (List Char × List Char)
  tables : List (List Char)
  table : List Row
deriving DecidableEq

/-- SQS FIFO deduplication: a message whose deduplication id is already in
the window is silently dropped. -/
def dedupEnq (q : List Dispatch) (d : Dispatch) : List Dispatch :=
  if q.any (fun m => decide (m.dedupId = d.dedupId)) then q else q ++ [d]

/-- `clean_data` (line 97): `df.dropna().drop_duplicates()` — remove rows
containing nulls, then remove duplicate rows keeping first occurrences. -/
def cleanData (df : List Row) : List Row :=
  dropDupFirst (df.filter (fun r => r.all (fun v => v.isSome)))

/-- `parse_s3_path` (lines 90-95): strip `s3://`, split once on `/` into
bucket and key, and take the first segment of the key as the folder name.
`none` models the `IndexError` when there is no `/`. -/
def parseS3Path (path : List Char) : Option (List Char × List Char × List Char) :=
  match pySplitOnce '/' (replaceS3 path) with
  | (_, none) => none
  | (bucket, some key) => some (bucket, key, (pySplitChar '/' key).headD [])

/-- `update_dynamodb` (lines 204-265): derive the base name from the key
(last segment, `.csv` removed), create the `database_list` item when it is
absent, then set the base name's `folder_name` to the new folder. -/
def updateDynamodb (t : Tracker) (key folderName : List Char) : Tracker :=
  match t with
  | none => some (setEntry [] (replaceCsv (lastSeg key)) (some folderName))
  | some m => some (setEntry m (replaceCsv (lastSeg key)) (some folderName))

inductive MainRes : Type
  | invalidPath : MainRes
  | tableMissing : MainRes
  | loadFailed : MainRes
  | success : MainRes
deriving DecidableEq

/-- `main` of `delta_load.py` (lines 25-59): validate the path, parse it,
abort silently when the target table does not exist, clean the data,
upsert row by row (a row failure propagates after rolling back only that
row's statement), and only then record the new folder name in the tracker.
The dataframe `df` stands for the parsed content of the fetched file, and
`bad` for the rows whose insert statement the database rejects. -/
def deltaLoadMain (κ : Row → RKey) (bad : Row → Bool) (sys : Sys) (path : List Char)
    (df : List Row) : Sys × MainRes :=
  if listStarts "s3://".data path = true then
    match parseS3Path path with
    | none => (sys, MainRes.invalidPath)
    | some (_, key, folderName) =>
      if replaceCsv (lastSeg key) ∈ sys.tables then
        match uploadToRds κ bad sys.table (cleanData df) with
        | (t2, none) =>
          ({ sys with table := t2, tracker := updateDynamodb sys.tracker key folderName },
            MainRes.success)
        | (t2, some _) => ({ sys with table := t2 }, MainRes.loadFailed)
      else (sys, MainRes.tableMissing)
  else (sys, MainRes.invalidPath)

/-- One coordinator invocation with its dispatch effects: on accept, the
SQS message enters the deduplicating queue and one Step Functions
execution is started. -/
def runLambda (sys : Sys) (bucket key uuid : List Char) : Sys × Outcome × Option Dispatch :=
  match lambdaHandler sys.tracker bucket key with
  | (o, some d) =>
    ({ sys with
        queue := dedupEnq sys.queue d,
        execs := sys.execs ++ [triggerStepFunction d.path uuid] }, o, some d)
  | (o, none) => (sys, o, none)

/-- One end-to-end arrival: the coordinator decides, and when it dispatches
the downstream load job runs on the dispatched file path. -/
def pipelineStep (κ : Row → RKey) (bad : Row → Bool) (sys : Sys) (bucket key uuid : List Char)
    (df : List Row) : Sys × Outcome × Option MainRes :=
  match runLambda sys bucket key uuid with
  | (s1, o, some d) =>
    match deltaLoadMain κ bad s1 d.path df with
    | (s2, mr) => (s2, o, some mr)
  | (s1, o, none) => (s1, o, none)

/-- One delivery in a sequence for a fixed identity: the folder (version)
name, the file content and the fresh execution-name suffix. -/
structure Arr : Type where
  folder : List Char
  rows : List Row
  uuid : List Char

/-- Deliver a sequence of arrivals for one identity (`fileName` fixed) in
order, collecting each arrival's coordinator outcome and load result. -/
def runSeq (κ : Row → RKey) (bad : Row → Bool) (bucket fileName : List Char) :
    Sys → List Arr → Sys × List (Outcome × Option MainRes)
  | sys, [] => (sys, [])
  | sys, a :: rest =>
    match pipelineStep κ bad sys bucket (a.folder ++ '/' :: fileName) a.uuid a.rows with
    | (s1, o, mr) =>
      match runSeq κ bad bucket fileName s1 rest with
      | (s2, res) => (s2, (o, mr) :: res)

/-- Concrete scenario states used to exercise the theorems: a tracker
already holding `students -> 100`, and a fresh tracker. -/
def exTracker : Tracker := some [("students".data, some "100".data)]

def exSys : Sys :=
  { tracker := exTracker, queue := [], execs := [], tables := ["students".data], table := [] }

def exSysEmpty : Sys :=
  { tracker := none, queue := [], execs := [], tables := ["students".data], table := [] }

def exRow : Row := [some "1".data]

def idKey : Row → RKey := fun r => r

def badAll : Row → Bool := fun _ => true

def badNone : Row → Bool := fun _ => false

/-- Concrete two-arrival sequence for the identity `students`: versions
`2024010100` then `2024010200`. -/
def exArrs : List Arr :=
  [{ folder := "2024010100".data, rows := [exRow], uuid := "u1".data },
   { folder := "2024010200".data, rows := [exRow], uuid := "u2".data }]

/-- Relation used to compare two tables that agree except at keys that a
remaining row sequence will overwrite. -/
def keyRel {α β : Type} (κ : α → β) (S : List β) (a b : α) : Prop :=
  κ a = κ b ∧ (a = b ∨ κ a ∈ S)

theorem isPyDigit_range (c : Char) (h : isPyDigit c = true) : 48 ≤ c.toNat ∧ c.toNat ≤ 57 := by
  simpa [isPyDigit] using h

theorem isPyDigit_ne_of (c d : Char) (h : isPyDigit c = true) (hd : isPyDigit d = false) :
    c ≠ d := by
  intro e
  rw [e, hd] at h
  cases h

theorem not_mem_of_digits (f : List Char) (hf : ∀ c ∈ f, isPyDigit c = true) (d : Char)
    (hd : isPyDigit d = false) : d ∉ f := by
  intro hm
  rw [hf d hm] at hd
  cases hd

theorem isPyDigit_not_ws (c : Char) (h : isPyDigit c = true) : pyWS c = false := by
  rcases isPyDigit_range c h with ⟨h1, h2⟩
  cases hw : pyWS c with
  | false => rfl
  | true =>
    exfalso
    simp only [pyWS, Bool.or_eq_true, decide_eq_true_eq] at hw
    have hc6 : c = ' ' ∨ c = '\t' ∨ c = '\n' ∨ c = '\r' ∨ c = '\x0B' ∨ c = '\x0C' := by tauto
    rcases hc6 with rfl | rfl | rfl | rfl | rfl | rfl <;> simp at h1 h2

theorem stripWS_of_digits (f : List Char) (hne : f ≠ []) (hf : ∀ c ∈ f, isPyDigit c = true) :
    stripWS f = f := by
  have h1 : f.dropWhile pyWS = f := by
    cases f with
    | nil => rfl
    | cons c cs =>
      rw [List.dropWhile_cons, if_neg]
      simp [isPyDigit_not_ws c (hf c (by simp))]
  have h2 : f.reverse.dropWhile pyWS = f.reverse := by
    cases hr : f.reverse with
    | nil => rfl
    | cons c cs =>
      have hc : c ∈ f := by
        have : c ∈ f.reverse := by rw [hr]; simp
        simpa using this
      rw [List.dropWhile_cons, if_neg]
      simp [isPyDigit_not_ws c (hf c hc)]
  unfold stripWS
  rw [h1, h2, List.reverse_reverse]

theorem digitsTailOk_cons (c : Char) (cs : List Char) :
    digitsTailOk (c :: cs) =
      if c = '_' then
        (match cs with
         | [] => false
         | d :: ds => isPyDigit d && digitsTailOk ds)
      else isPyDigit c && digitsTailOk cs := by
  cases cs <;> rfl

theorem digitsTailOk_of_digits (cs : List Char) (h : ∀ c ∈ cs, isPyDigit c = true) :
    digitsTailOk cs = true := by
  induction cs with
  | nil => rfl
  | cons c cs ih =>
    have hc := h c (by simp)
    have hcu : ¬ (c = '_') := isPyDigit_ne_of c '_' hc (by decide)
    rw [digitsTailOk_cons, if_neg hcu, hc, ih (fun d hd => h d (by simp [hd]))]
    rfl

theorem okDigits_of_digits (f : List Char) (hne : f ≠ []) (hf : ∀ c ∈ f, isPyDigit c = true) :
    okDigits f = true := by
  cases f with
  | nil => exact absurd rfl hne
  | cons c cs =>
    simp only [okDigits, hf c (by simp), Bool.true_and]
    exact digitsTailOk_of_digits cs (fun d hd => hf d (by simp [hd]))

theorem noUnd_of_digits (f : List Char) (hf : ∀ c ∈ f, isPyDigit c = true) : noUnd f = f := by
  unfold noUnd
  rw [List.filter_eq_self]
  intro c hc
  simpa using isPyDigit_ne_of c '_' (hf c hc) (by decide)

theorem pyInt_of_digits (f : List Char) (hne : f ≠ []) (hf : ∀ c ∈ f, isPyDigit c = true) :
    pyInt f = some ((digitsNat f : Nat) : Int) := by
  cases f with
  | nil => exact absurd rfl hne
  | cons c cs =>
    have hc := hf c (by simp)
    have hplus : ¬ (c = '+') := isPyDigit_ne_of c '+' hc (by decide)
    have hminus : ¬ (c = '-') := isPyDigit_ne_of c '-' hc (by decide)
    have hok := okDigits_of_digits (c :: cs) (by simp) hf
    have hnu := noUnd_of_digits (c :: cs) hf
    unfold pyInt
    rw [stripWS_of_digits (c :: cs) (by simp) hf]
    simp only [if_neg hplus, if_neg hminus, hok, hnu, if_true]

theorem pySplitChar_ne_nil (sep : Char) (s : List Char) : pySplitChar sep s ≠ [] := by
  cases s with
  | nil => simp [pySplitChar]
  | cons c cs =>
    simp only [pySplitChar]
    cases h : pySplitChar sep cs with
    | nil => simp
    | cons g gs =>
      by_cases hc : c = sep <;> simp [hc]

theorem pySplitChar_no_sep (sep : Char) (s : List Char) (h : sep ∉ s) :
    pySplitChar sep s = [s] := by
  induction s with
  | nil => rfl
  | cons c cs ih =>
    have hc : ¬ (c = sep) := fun e => h (by simp [e])
    have hcs : sep ∉ cs := fun m => h (by simp [m])
    simp [pySplitChar, ih hcs, hc]

theorem pySplitChar_append (sep : Char) (a b : List Char) (h : sep ∉ a) :
    pySplitChar sep (a ++ sep :: b) = a :: pySplitChar sep b := by
  induction a with
  | nil =>
    cases hb : pySplitChar sep b with
    | nil => exact absurd hb (pySplitChar_ne_nil sep b)
    | cons g gs => simp [pySplitChar, hb]
  | cons c a2 ih =>
    have hc : ¬ (c = sep) := fun e => h (by simp [e])
    have ha2 : sep ∉ a2 := fun m => h (by simp [m])
    rw [List.cons_append]
    simp only [pySplitChar]
    rw [ih ha2]
    simp [hc]

theorem pySplitChar_length (sep : Char) (s : List Char) :
    (pySplitChar sep s).length = s.count sep + 1 := by
  induction s with
  | nil => simp [pySplitChar]
  | cons c cs ih =>
    cases h : pySplitChar sep cs with
    | nil => exact absurd h (pySplitChar_ne_nil sep cs)
    | cons g gs =>
      rw [h] at ih
      by_cases hc : c = sep
      · subst hc
        simp only [pySplitChar, h, eq_self_iff_true, if_true]
        rw [List.count_cons_self]
        simp only [List.length_cons] at ih ⊢
        omega
      · simp only [pySplitChar, h, if_neg hc]
        rw [List.count_cons_of_ne (fun e => hc (Eq.symm e))]
        simp only [List.length_cons] at ih ⊢
        omega

theorem pySplitOnce_append (sep : Char) (a b : List Char) (h : sep ∉ a) :
    pySplitOnce sep (a ++ sep :: b) = (a, some b) := by
  induction a with
  | nil => simp [pySplitOnce, pySplitOnceP]
  | cons c a2 ih =>
    have hc : ¬ (c = sep) := fun e => h (by simp [e])
    have ha2 : sep ∉ a2 := fun m => h (by simp [m])
    have := ih ha2
    simp only [pySplitOnce] at this ⊢
    simp [List.cons_append, pySplitOnceP, hc, this]

theorem dropThroughFirst_append (sep : Char) (a b : List Char) (h : sep ∉ a) :
    dropThroughFirst sep (a ++ sep :: b) = some b := by
  induction a with
  | nil => simp [dropThroughFirst]
  | cons c a2 ih =>
    have hc : ¬ (c = sep) := fun e => h (by simp [e])
    have ha2 : sep ∉ a2 := fun m => h (by simp [m])
    simp [dropThroughFirst, hc, ih ha2]

theorem pyRsplitBase_concat (b e : List Char) (he : '.' ∉ e) :
    pyRsplitBase (b ++ '.' :: e) = b := by
  unfold pyRsplitBase
  have hrev : (b ++ '.' :: e).reverse = e.reverse ++ '.' :: b.reverse := by
    simp
  rw [hrev, dropThroughFirst_append '.' e.reverse b.reverse (by simpa using he)]
  show b.reverse.reverse = b
  exact List.reverse_reverse b

theorem replaceCsv_cons_ne (c : Char) (rest : List Char) (h : ¬ (c = '.')) :
    replaceCsv (c :: rest) = c :: replaceCsv rest := by
  cases rest with
  | nil => simp [replaceCsv, h]
  | cons c2 r2 =>
    cases r2 with
    | nil => simp [replaceCsv, h]
    | cons c3 r3 =>
      cases r3 with
      | nil => simp [replaceCsv, h]
      | cons c4 r4 => simp [replaceCsv, h]

theorem replaceCsv_append_csv (b : List Char) (hb : '.' ∉ b) :
    replaceCsv (b ++ '.' :: 'c' :: 's' :: 'v' :: []) = b := by
  induction b with
  | nil => rfl
  | cons c b2 ih =>
    have hc : ¬ (c = '.') := fun e => hb (by simp [e])
    have hb2 : '.' ∉ b2 := fun m => hb (by simp [m])
    rw [List.cons_append, replaceCsv_cons_ne c _ hc, ih hb2]

theorem replaceS3_cons_keep (c : Char) (rest : List Char) (h : ':' ∉ c :: rest) :
    replaceS3 (c :: rest) = c :: replaceS3 rest := by
  cases rest with
  | nil => simp [replaceS3]
  | cons c2 r2 =>
    cases r2 with
    | nil => simp [replaceS3]
    | cons c3 r3 =>
      cases r3 with
      | nil => simp [replaceS3]
      | cons c4 r4 =>
        cases r4 with
        | nil => simp [replaceS3]
        | cons c5 r5 =>
          have hc3 : ¬ (c3 = ':') := fun e => h (by simp [e])
          simp only [replaceS3]
          rw [if_neg]
          intro hand
          exact hc3 hand.2.2.1

theorem replaceS3_no_colon (s : List Char) (h : ':' ∉ s) : replaceS3 s = s := by
  induction s with
  | nil => rfl
  | cons c cs ih =>
    rw [replaceS3_cons_keep c cs h, ih (fun m => h (by simp [m]))]

theorem replaceS3_strip (rest : List Char) :
    replaceS3 ('s' :: '3' :: ':' :: '/' :: '/' :: rest) = replaceS3 rest := by
  simp [replaceS3]

theorem listStarts_append (pat r : List Char) : listStarts pat (pat ++ r) = true := by
  induction pat with
  | nil => rfl
  | cons p ps ih => simp [listStarts, ih]

theorem find_map_set (m : EntryMap) (b : List Char) (v : Option (List Char))
    (ha : m.any (fun p => decide (p.1 = b)) = true) :
    (m.map (fun p => if p.1 = b then (b, v) else p)).find? (fun p => decide (p.1 = b)) =
      some (b, v) := by
  induction m with
  | nil => cases ha
  | cons p m2 ih =>
    by_cases hpb : p.1 = b
    · simp only [List.map_cons, if_pos hpb]
      rw [List.find?_cons_of_pos]
      simp
    · simp only [List.map_cons, if_neg hpb]
      rw [List.find?_cons_of_neg _ (by simp [hpb])]
      apply ih
      rcases List.any_eq_true.1 ha with ⟨q, hq, hqb⟩
      rcases List.mem_cons.1 hq with rfl | hq2
      · exact absurd (of_decide_eq_true hqb) hpb
      · exact List.any_eq_true.2 ⟨q, hq2, hqb⟩

theorem find_append_set (m : EntryMap) (b : List Char) (v : Option (List Char))
    (ha : m.any (fun p => decide (p.1 = b)) = false) :
    (m ++ [(b, v)]).find? (fun p => decide (p.1 = b)) = some (b, v) := by
  induction m with
  | nil => simp [List.find?_cons_of_pos]
  | cons p m2 ih =>
    simp only [List.any_cons, Bool.or_eq_false_iff] at ha
    rw [List.cons_append, List.find?_cons_of_neg _ (by simp [ha.1])]
    exact ih ha.2

theorem lookupEntry_setEntry (m : EntryMap) (b : List Char) (v : Option (List Char)) :
    lookupEntry (setEntry m b v) b = some v := by
  unfold lookupEntry setEntry
  by_cases ha : m.any (fun p => decide (p.1 = b)) = true
  · rw [if_pos ha, find_map_set m b v ha]
    rfl
  · rw [if_neg ha, find_append_set m b v ?hfa]
    · rfl
    case hfa =>
      cases h : m.any (fun p => decide (p.1 = b)) with
      | false => rfl
      | true => exact absurd h ha

theorem getEntry_updateDynamodb (t : Tracker) (key f : List Char) :
    getEntry (updateDynamodb t key f) (replaceCsv (lastSeg key)) = some (some f) := by
  cases t with
  | none => exact lookupEntry_setEntry [] _ (some f)
  | some m => exact lookupEntry_setEntry m _ (some f)

theorem key_mem_iff {α β : Type} [DecidableEq β] (κ : α → β) (t : List α) (r : α) :
    κ r ∈ t.map κ ↔ ∃ x ∈ t, κ x = κ r := by
  simp [List.mem_map]

theorem upsertRow_pos {α β : Type} [DecidableEq β] (κ : α → β) (t : List α) (r : α)
    (h : ∃ x ∈ t, κ x = κ r) :
    upsertRow κ t r = t.map (fun x => if κ x = κ r then r else x) := by
  unfold upsertRow
  rw [if_pos h]

theorem upsertRow_neg {α β : Type} [DecidableEq β] (κ : α → β) (t : List α) (r : α)
    (h : ¬ ∃ x ∈ t, κ x = κ r) : upsertRow κ t r = t ++ [r] := by
  unfold upsertRow
  rw [if_neg h]

theorem keyRepl_eq {α β : Type} [DecidableEq β] (κ : α → β) (r x : α) :
    κ (if κ x = κ r then r else x) = κ x := by
  by_cases h : κ x = κ r <;> simp [h]

theorem map_congr_mem {α β : Type} (l : List α) (f g : α → β) (h : ∀ x ∈ l, f x = g x) :
    l.map f = l.map g := by
  induction l with
  | nil => rfl
  | cons a l2 ih =>
    simp only [List.map_cons]
    rw [h a (by simp), ih (fun x hx => h x (by simp [hx]))]

theorem map_id_of {α : Type} (l : List α) (f : α → α) (h : ∀ x ∈ l, f x = x) : l.map f = l := by
  induction l with
  | nil => rfl
  | cons a l2 ih =>
    simp only [List.map_cons]
    rw [h a (by simp), ih (fun x hx => h x (by simp [hx]))]

theorem map_key_upsert_pos {α β : Type} [DecidableEq β] (κ : α → β) (t : List α) (r : α)
    (h : κ r ∈ t.map κ) : (upsertRow κ t r).map κ = t.map κ := by
  rw [upsertRow_pos κ t r ((key_mem_iff κ t r).1 h), List.map_map]
  exact map_congr_mem t _ κ (fun x _ => keyRepl_eq κ r x)

theorem map_key_upsert_neg {α β : Type} [DecidableEq β] (κ : α → β) (t : List α) (r : α)
    (h : κ r ∉ t.map κ) : (upsertRow κ t r).map κ = t.map κ ++ [κ r] := by
  rw [upsertRow_neg κ t r (fun he => h ((key_mem_iff κ t r).2 he))]
  simp

theorem key_self_mem_upsert {α β : Type} [DecidableEq β] (κ : α → β) (t : List α) (r : α) :
    κ r ∈ (upsertRow κ t r).map κ := by
  by_cases h : κ r ∈ t.map κ
  · rw [map_key_upsert_pos κ t r h]
    exact h
  · rw [map_key_upsert_neg κ t r h]
    simp

theorem key_mono_upsert {α β : Type} [DecidableEq β] (κ : α → β) (t : List α) (r : α) (k : β)
    (h : k ∈ t.map κ) : k ∈ (upsertRow κ t r).map κ := by
  by_cases hm : κ r ∈ t.map κ
  · rw [map_key_upsert_pos κ t r hm]
    exact h
  · rw [map_key_upsert_neg κ t r hm]
    simp [h]

theorem applyRows_cons {α β : Type} [DecidableEq β] (κ : α → β) (t : List α) (r : α)
    (rs : List α) : applyRows κ t (r :: rs) = applyRows κ (upsertRow κ t r) rs := rfl

theorem key_mem_applyRows {α β : Type} [DecidableEq β] (κ : α → β) (rs : List α) :
    ∀ (t : List α) (k : β), k ∈ t.map κ → k ∈ (applyRows κ t rs).map κ := by
  induction rs with
  | nil => intro t k h; exact h
  | cons r rs2 ih =>
    intro t k h
    rw [applyRows_cons]
    exact ih _ k (key_mono_upsert κ t r k h)

theorem key_rs_mem_applyRows {α β : Type} [DecidableEq β] (κ : α → β) (rs : List α) :
    ∀ (t : List α) (r : α), r ∈ rs → κ r ∈ (applyRows κ t rs).map κ := by
  induction rs with
  | nil => intro t r h; cases h
  | cons a rs2 ih =>
    intro t r h
    rw [applyRows_cons]
    rcases List.mem_cons.1 h with rfl | h2
    · exact key_mem_applyRows κ rs2 _ _ (key_self_mem_upsert κ t r)
    · exact ih _ r h2

theorem mem_upsertRow {α β : Type} [DecidableEq β] (κ : α → β) (t : List α) (r x : α)
    (h : x ∈ upsertRow κ t r) : x ∈ t ∨ x = r := by
  by_cases hb : ∃ y ∈ t, κ y = κ r
  · rw [upsertRow_pos κ t r hb] at h
    rcases List.mem_map.1 h with ⟨y, hy, he⟩
    by_cases hyk : κ y = κ r
    · right
      rw [← he, if_pos hyk]
    · left
      rw [← he, if_neg hyk]
      exact hy
  · rw [upsertRow_neg κ t r hb] at h
    rcases List.mem_append.1 h with h2 | h2
    · exact Or.inl h2
    · right; simpa using h2

theorem mem_applyRows {α β : Type} [DecidableEq β] (κ : α → β) (rs : List α) :
    ∀ (t : List α) (x : α), x ∈ applyRows κ t rs → x ∈ t ∨ x ∈ rs := by
  induction rs with
  | nil => intro t x h; exact Or.inl h
  | cons r rs2 ih =>
    intro t x h
    rw [applyRows_cons] at h
    rcases ih _ x h with h2 | h2
    · rcases mem_upsertRow κ t r x h2 with h3 | rfl
      · exact Or.inl h3
      · exact Or.inr (by simp)
    · exact Or.inr (by simp [h2])

theorem mem_upsert_key_eq {α β : Type} [DecidableEq β] (κ : α → β) (t : List α) (r x : α)
    (hx : x ∈ upsertRow κ t r) (hk : κ x = κ r) : x = r := by
  by_cases hb : ∃ y ∈ t, κ y = κ r
  · rw [upsertRow_pos κ t r hb] at hx
    rcases List.mem_map.1 hx with ⟨y, hy, he⟩
    by_cases hyk : κ y = κ r
    · rw [← he, if_pos hyk]
    · exfalso
      rw [if_neg hyk] at he
      exact hyk (he ▸ hk)
  · rw [upsertRow_neg κ t r hb] at hx
    rcases List.mem_append.1 hx with h2 | h2
    · exact absurd ⟨x, h2, hk⟩ hb
    · simpa using h2

theorem upsertRow_eq_self {α β : Type} [DecidableEq β] (κ : α → β) (t : List α) (r : α)
    (hmem : ∃ x ∈ t, κ x = κ r) (hall : ∀ x ∈ t, κ x = κ r → x = r) : upsertRow κ t r = t := by
  rw [upsertRow_pos κ t r hmem]
  apply map_id_of
  intro x hx
  by_cases hk : κ x = κ r
  · rw [if_pos hk]
    exact (hall x hx hk).symm
  · rw [if_neg hk]

theorem keyRel_map_eq {α β : Type} [DecidableEq β] (κ : α → β) (S : List β) {A B : List α}
    (h : List.Forall₂ (keyRel κ S) A B) : A.map κ = B.map κ := by
  induction h with
  | nil => rfl
  | cons hab htail ih =>
    simp only [List.map_cons]
    rw [hab.1, ih]

theorem keyRel_nil_eq {α β : Type} [DecidableEq β] (κ : α → β) {A B : List α}
    (h : List.Forall₂ (keyRel κ []) A B) : A = B := by
  induction h with
  | nil => rfl
  | cons hab htail ih =>
    rcases hab.2 with heq | hmem
    · rw [heq, ih]
    · cases hmem

theorem keyRel_map_repl {α β : Type} [DecidableEq β] (κ : α → β) (r2 : α) (S : List β)
    {A B : List α} (h : List.Forall₂ (keyRel κ (κ r2 :: S)) A B) :
    List.Forall₂ (keyRel κ S) (A.map (fun x => if κ x = κ r2 then r2 else x))
      (B.map (fun x => if κ x = κ r2 then r2 else x)) := by
  induction h with
  | nil => exact List.Forall₂.nil
  | cons hab htail ih =>
    refine List.Forall₂.cons ⟨?_, ?_⟩ ih
    · simp only [keyRepl_eq]
      exact hab.1
    · rcases hab.2 with heq | hmem
      · left
        rw [heq]
      · rcases List.mem_cons.1 hmem with he | hS
        · left
          simp only [if_pos he, if_pos (hab.1 ▸ he)]
        · right
          simp only [keyRepl_eq]
          exact hS

theorem keyRel_weaken {α β : Type} [DecidableEq β] (κ : α → β) (r2 : α) (S : List β) :
    ∀ {A B : List α}, List.Forall₂ (keyRel κ (κ r2 :: S)) A B → κ r2 ∉ A.map κ →
      List.Forall₂ (keyRel κ S) A B := by
  intro A B h
  induction h with
  | nil => intro _; exact List.Forall₂.nil
  | cons hab htail ih =>
    intro hnm
    refine List.Forall₂.cons ⟨hab.1, ?_⟩ (ih (fun hm => hnm (by simp [hm])))
    rcases hab.2 with heq | hmem
    · exact Or.inl heq
    · rcases List.mem_cons.1 hmem with he | hS
      · exact absurd (by simp [← he]) hnm
      · exact Or.inr hS

theorem keyRel_append {α β : Type} [DecidableEq β] (κ : α → β) (S : List β)
    {A B C D : List α} (h1 : List.Forall₂ (keyRel κ S) A B)
    (h2 : List.Forall₂ (keyRel κ S) C D) :
    List.Forall₂ (keyRel κ S) (A ++ C) (B ++ D) := by
  induction h1 with
  | nil => simpa using h2
  | cons hab htail ih => exact List.Forall₂.cons hab ih

theorem forall2_repl_left {α β : Type} [DecidableEq β] (κ : α → β) (r2 : α) (S : List β)
    (hS : κ r2 ∈ S) (T : List α) :
    List.Forall₂ (keyRel κ S) (T.map (fun x => if κ x = κ r2 then r2 else x)) T := by
  induction T with
  | nil => exact List.Forall₂.nil
  | cons y T2 ih =>
    refine List.Forall₂.cons ⟨keyRepl_eq κ r2 y, ?_⟩ ih
    by_cases hy : κ y = κ r2
    · right
      simp only [keyRepl_eq]
      rw [hy]
      exact hS
    · left
      simp only [if_neg hy]

theorem applyRows_congr {α β : Type} [DecidableEq β] (κ : α → β) (rest : List α) :
    ∀ A B : List α, List.Forall₂ (keyRel κ (rest.map κ)) A B →
      applyRows κ A rest = applyRows κ B rest := by
  induction rest with
  | nil => exact fun A B h => keyRel_nil_eq κ h
  | cons r2 rest2 ih =>
    intro A B h
    have hkeys := keyRel_map_eq κ _ h
    rw [applyRows_cons, applyRows_cons]
    apply ih
    by_cases hm : κ r2 ∈ A.map κ
    · have hmB : κ r2 ∈ B.map κ := hkeys ▸ hm
      rw [upsertRow_pos κ A r2 ((key_mem_iff κ A r2).1 hm),
        upsertRow_pos κ B r2 ((key_mem_iff κ B r2).1 hmB)]
      exact keyRel_map_repl κ r2 _ h
    · have hmB : κ r2 ∉ B.map κ := fun hx => hm (hkeys ▸ hx)
      rw [upsertRow_neg κ A r2 (fun he => hm ((key_mem_iff κ A r2).2 he)),
        upsertRow_neg κ B r2 (fun he => hmB ((key_mem_iff κ B r2).2 he))]
      refine keyRel_append κ _ (keyRel_weaken κ r2 _ h hm) ?_
      exact List.Forall₂.cons ⟨rfl, Or.inl rfl⟩ List.Forall₂.nil

theorem applyRows_twice {α β : Type} [DecidableEq β] (κ : α → β) (rs : List α) :
    ∀ t : List α, applyRows κ (applyRows κ t rs) rs = applyRows κ t rs := by
  induction rs with
  | nil => intro t; rfl
  | cons r rest ih =>
    intro t
    rw [applyRows_cons κ t r rest]
    rw [applyRows_cons κ (applyRows κ (upsertRow κ t r) rest) r rest]
    have hTkey : κ r ∈ (applyRows κ (upsertRow κ t r) rest).map κ :=
      key_mem_applyRows κ rest _ _ (key_self_mem_upsert κ t r)
    by_cases hm : κ r ∈ rest.map κ
    · have hcongr :
          applyRows κ (upsertRow κ (applyRows κ (upsertRow κ t r) rest) r) rest =
            applyRows κ (applyRows κ (upsertRow κ t r) rest) rest := by
        apply applyRows_congr κ rest
        rw [upsertRow_pos κ _ r ((key_mem_iff κ _ r).1 hTkey)]
        exact forall2_repl_left κ r _ hm _
      rw [hcongr]
      exact ih (upsertRow κ t r)
    · have heq : upsertRow κ (applyRows κ (upsertRow κ t r) rest) r =
          applyRows κ (upsertRow κ t r) rest := by
        apply upsertRow_eq_self κ _ r ((key_mem_iff κ _ r).1 hTkey)
        intro x hx hk
        rcases mem_applyRows κ rest _ x hx with h2 | h2
        · exact mem_upsert_key_eq κ t r x h2 hk
        · exact absurd (hk ▸ List.mem_map_of_mem κ h2) hm
      rw [heq]
      exact ih (upsertRow κ t r)

theorem uploadToRds_ok {α β : Type} [DecidableEq β] (κ : α → β) (bad : α → Bool) (rs : List α) :
    ∀ t : List α, (∀ r ∈ rs, bad r = false) →
      uploadToRds κ bad t rs = (applyRows κ t rs, none) := by
  induction rs with
  | nil => intro t _; rfl
  | cons r rs2 ih =>
    intro t h
    have hr : bad r = false := h r (by simp)
    simp only [uploadToRds, hr]
    rw [applyRows_cons]
    simpa using ih (upsertRow κ t r) (fun x hx => h x (by simp [hx]))

theorem uploadToRds_fail {α β : Type} [DecidableEq β] (κ : α → β) (bad : α → Bool)
    (pre : List α) :
    ∀ (t : List α) (r : α) (post : List α), (∀ x ∈ pre, bad x = false) → bad r = true →
      uploadToRds κ bad t (pre ++ r :: post) = (applyRows κ t pre, some r) := by
  induction pre with
  | nil =>
    intro t r post _ hr
    simp only [List.nil_append, uploadToRds, hr]
    rfl
  | cons x pre2 ih =>
    intro t r post h hr
    have hx : bad x = false := h x (by simp)
    simp only [List.cons_append, uploadToRds, hx]
    rw [applyRows_cons]
    simpa using ih (upsertRow κ t x) r post (fun y hy => h y (by simp [hy])) hr

theorem mem_dropDupAux {α : Type} [DecidableEq α] (l : List α) :
    ∀ (seen : List α) (x : α), x ∈ dropDupAux seen l → x ∈ l := by
  induction l with
  | nil => intro seen x h; cases h
  | cons a l2 ih =>
    intro seen x h
    simp only [dropDupAux] at h
    by_cases ha : a ∈ seen
    · rw [if_pos ha] at h
      exact List.mem_cons_of_mem a (ih seen x h)
    · rw [if_neg ha] at h
      rcases List.mem_cons.1 h with rfl | h2
      · simp
      · exact List.mem_cons_of_mem a (ih (a :: seen) x h2)

theorem mem_cleanData (df : List Row) (r : Row) (h : r ∈ cleanData df) : r ∈ df := by
  have h2 := mem_dropDupAux _ _ _ h
  exact List.mem_of_mem_filter h2

theorem lastSeg_of_split (key folder fileName : List Char)
    (hsplit : pySplitChar '/' key = [folder, fileName]) : lastSeg key = fileName := by
  unfold lastSeg
  rw [hsplit]
  rfl

theorem lambdaHandler_accept (tracker : Tracker) (bucket key folder fileName : List Char)
    (ts : Int) (hsplit : pySplitChar '/' key = [folder, fileName])
    (hts : pyInt folder = some ts)
    (hgate : getEntry tracker (pyRsplitBase fileName) = none ∨
      ∃ f e, getEntry tracker (pyRsplitBase fileName) = some (some f) ∧ ¬ (f = []) ∧
        pyInt (noUnd f) = some e ∧ e < ts) :
    lambdaHandler tracker bucket key =
      (Outcome.processed, some (processNewFile bucket key (pyRsplitBase fileName) ts)) := by
  unfold lambdaHandler
  rw [hsplit]
  rcases hgate with hnone | ⟨f, e, hf, hne, he, hlt⟩
  · simp only [hts, hnone]
  · simp only [hts, hf, if_neg hne, he, if_pos hlt]

theorem lambdaHandler_stale (tracker : Tracker) (bucket key folder fileName fb : List Char)
    (va vb : Int) (hsplit : pySplitChar '/' key = [folder, fileName])
    (hts : pyInt folder = some va)
    (hf : getEntry tracker (pyRsplitBase fileName) = some (some fb)) (hne : ¬ (fb = []))
    (hvb : pyInt (noUnd fb) = some vb) (hle : va ≤ vb) :
    lambdaHandler tracker bucket key = (Outcome.noAction, none) := by
  unfold lambdaHandler
  rw [hsplit]
  simp only [hts, hf, if_neg hne, hvb, if_neg (not_lt.2 hle)]

theorem lambdaHandler_parse_len (tracker : Tracker) (bucket key : List Char)
    (h : ¬ ((pySplitChar '/' key).length = 2)) :
    lambdaHandler tracker bucket key = (Outcome.parseError, none) := by
  unfold lambdaHandler
  rcases hsp : pySplitChar '/' key with _ | ⟨a, _ | ⟨b, _ | ⟨c, rest⟩⟩⟩
  · rfl
  · rfl
  · exact absurd (by rw [hsp]; rfl) h
  · rfl

theorem lambdaHandler_parse_int (tracker : Tracker) (bucket key folder fileName : List Char)
    (hsplit : pySplitChar '/' key = [folder, fileName]) (hint : pyInt folder = none) :
    lambdaHandler tracker bucket key = (Outcome.parseError, none) := by
  unfold lambdaHandler
  rw [hsplit]
  simp only [hint]

theorem runLambda_dispatch (sys : Sys) (bucket key uuid : List Char) (o : Outcome) (d : Dispatch)
    (h : lambdaHandler sys.tracker bucket key = (o, some d)) :
    runLambda sys bucket key uuid =
      ({ sys with
          queue := dedupEnq sys.queue d,
          execs := sys.execs ++ [triggerStepFunction d.path uuid] }, o, some d) := by
  unfold runLambda
  rw [h]

theorem runLambda_none (sys : Sys) (bucket key uuid : List Char) (o : Outcome)
    (h : lambdaHandler sys.tracker bucket key = (o, none)) :
    runLambda sys bucket key uuid = (sys, o, none) := by
  unfold runLambda
  rw [h]

theorem runLambda_tracker_eq (sys : Sys) (bucket key uuid : List Char) :
    (runLambda sys bucket key uuid).1.tracker = sys.tracker := by
  rcases h : lambdaHandler sys.tracker bucket key with ⟨o, d⟩
  cases d with
  | none => rw [runLambda_none sys bucket key uuid o h]
  | some d2 => rw [runLambda_dispatch sys bucket key uuid o d2 h]

theorem runLambda_tables_eq (sys : Sys) (bucket key uuid : List Char) :
    (runLambda sys bucket key uuid).1.tables = sys.tables := by
  rcases h : lambdaHandler sys.tracker bucket key with ⟨o, d⟩
  cases d with
  | none => rw [runLambda_none sys bucket key uuid o h]
  | some d2 => rw [runLambda_dispatch sys bucket key uuid o d2 h]

theorem pipelineStep_none (κ : Row → RKey) (bad : Row → Bool) (sys : Sys)
    (bucket key uuid : List Char) (df : List Row) (o : Outcome)
    (h : lambdaHandler sys.tracker bucket key = (o, none)) :
    pipelineStep κ bad sys bucket key uuid df = (sys, o, none) := by
  unfold pipelineStep
  rw [runLambda_none sys bucket key uuid o h]

theorem colon_not_mem_path (bucket key : List Char) (hbcol : ':' ∉ bucket) (hkcol : ':' ∉ key) :
    ':' ∉ bucket ++ '/' :: key := by
  intro hm
  rcases List.mem_append.1 hm with h | h
  · exact hbcol h
  · rcases List.mem_cons.1 h with he | h2
    · exact absurd he (by decide)
    · exact hkcol h2

theorem parseS3Path_of_built (bucket key : List Char) (hbsl : '/' ∉ bucket)
    (hbcol : ':' ∉ bucket) (hkcol : ':' ∉ key) :
    parseS3Path ("s3://".data ++ bucket ++ '/' :: key) =
      some (bucket, key, (pySplitChar '/' key).headD []) := by
  have hpath : "s3://".data ++ bucket ++ '/' :: key =
      's' :: '3' :: ':' :: '/' :: '/' :: (bucket ++ '/' :: key) := rfl
  unfold parseS3Path
  rw [hpath, replaceS3_strip, replaceS3_no_colon _ (colon_not_mem_path bucket key hbcol hkcol),
    pySplitOnce_append '/' bucket key hbsl]

theorem deltaLoadMain_success (κ : Row → RKey) (bad : Row → Bool) (sys : Sys)
    (bucket key folder fileName : List Char) (df : List Row)
    (hbsl : '/' ∉ bucket) (hbcol : ':' ∉ bucket) (hkcol : ':' ∉ key)
    (hsplit : pySplitChar '/' key = [folder, fileName])
    (htab : replaceCsv fileName ∈ sys.tables)
    (hok : ∀ r ∈ cleanData df, bad r = false) :
    deltaLoadMain κ bad sys ("s3://".data ++ bucket ++ '/' :: key) df =
      ({ sys with
          table := applyRows κ sys.table (cleanData df),
          tracker := updateDynamodb sys.tracker key folder }, MainRes.success) := by
  have hstart : listStarts "s3://".data ("s3://".data ++ bucket ++ '/' :: key) = true :=
    listStarts_append "s3://".data (bucket ++ '/' :: key)
  have hparse := parseS3Path_of_built bucket key hbsl hbcol hkcol
  rw [hsplit] at hparse
  unfold deltaLoadMain
  rw [if_pos hstart]
  simp only [hparse]
  rw [lastSeg_of_split key folder fileName hsplit, if_pos htab,
    uploadToRds_ok κ bad (cleanData df) sys.table hok]
  rfl

theorem deltaLoadMain_loadFailed (κ : Row → RKey) (bad : Row → Bool) (sys : Sys)
    (bucket key folder fileName : List Char) (df : List Row) (t2 : List Row) (rbad : Row)
    (hbsl : '/' ∉ bucket) (hbcol : ':' ∉ bucket) (hkcol : ':' ∉ key)
    (hsplit : pySplitChar '/' key = [folder, fileName])
    (htab : replaceCsv fileName ∈ sys.tables)
    (hup : uploadToRds κ bad sys.table (cleanData df) = (t2, some rbad)) :
    deltaLoadMain κ bad sys ("s3://".data ++ bucket ++ '/' :: key) df =
      ({ sys with table := t2 }, MainRes.loadFailed) := by
  have hstart : listStarts "s3://".data ("s3://".data ++ bucket ++ '/' :: key) = true :=
    listStarts_append "s3://".data (bucket ++ '/' :: key)
  have hparse := parseS3Path_of_built bucket key hbsl hbcol hkcol
  rw [hsplit] at hparse
  unfold deltaLoadMain
  rw [if_pos hstart]
  simp only [hparse]
  rw [lastSeg_of_split key folder fileName hsplit, if_pos htab, hup]

theorem deltaLoadMain_tracker_shape (κ : Row → RKey) (bad : Row → Bool) (sys : Sys)
    (path : List Char) (df : List Row) :
    (deltaLoadMain κ bad sys path df).2 = MainRes.success ∨
      (deltaLoadMain κ bad sys path df).1.tracker = sys.tracker := by
  unfold deltaLoadMain
  by_cases hS : listStarts "s3://".data path = true
  · rw [if_pos hS]
    rcases hp : parseS3Path path with _ | ⟨b2, k2, f2⟩
    · right; rfl
    · simp only []
      by_cases htab : replaceCsv (lastSeg k2) ∈ sys.tables
      · rw [if_pos htab]
        rcases hup : uploadToRds κ bad sys.table (cleanData df) with ⟨t2, orow⟩
        cases orow with
        | none => left; rfl
        | some rbad => right; rfl
      · rw [if_neg htab]
        right; rfl
  · rw [if_neg hS]
    right; rfl

theorem slash_not_mem_fileName (b : List Char) (hbsl2 : '/' ∉ b) :
    '/' ∉ b ++ '.' :: 'c' :: 's' :: 'v' :: [] := by
  intro hm
  rcases List.mem_append.1 hm with h | h
  · exact hbsl2 h
  · simp at h

theorem colon_not_mem_fileName (b : List Char) (hbcolon : ':' ∉ b) :
    ':' ∉ b ++ '.' :: 'c' :: 's' :: 'v' :: [] := by
  intro hm
  rcases List.mem_append.1 hm with h | h
  · exact hbcolon h
  · simp at h

theorem split_arrival_key (b folder : List Char) (hbsl2 : '/' ∉ b)
    (hfd : ∀ c ∈ folder, isPyDigit c = true) :
    pySplitChar '/' (folder ++ '/' :: (b ++ '.' :: 'c' :: 's' :: 'v' :: [])) =
      [folder, b ++ '.' :: 'c' :: 's' :: 'v' :: []] := by
  rw [pySplitChar_append '/' folder _ (not_mem_of_digits folder hfd '/' (by decide)),
    pySplitChar_no_sep '/' _ (slash_not_mem_fileName b hbsl2)]

theorem pipelineStep_dispatch (κ : Row → RKey) (bad : Row → Bool) (sys : Sys)
    (bucket key uuid : List Char) (df : List Row) (o : Outcome) (d : Dispatch) (s2 : Sys)
    (mr : MainRes) (h : lambdaHandler sys.tracker bucket key = (o, some d))
    (h2 : deltaLoadMain κ bad
        ({ sys with
            queue := dedupEnq sys.queue d,
            execs := sys.execs ++ [triggerStepFunction d.path uuid] }) d.path df = (s2, mr)) :
    pipelineStep κ bad sys bucket key uuid df = (s2, o, some mr) := by
  unfold pipelineStep
  rw [runLambda_dispatch sys bucket key uuid o d h]
  simp only [h2]

theorem pipelineStep_accept (κ : Row → RKey) (bad : Row → Bool) (sys : Sys)
    (bucket b folder uuid : List Char) (rows : List Row)
    (hbdot : '.' ∉ b) (hbsl2 : '/' ∉ b) (hbcolon : ':' ∉ b)
    (hbsl : '/' ∉ bucket) (hbcol : ':' ∉ bucket)
    (htab : b ∈ sys.tables)
    (hfne : folder ≠ []) (hfd : ∀ c ∈ folder, isPyDigit c = true)
    (hok : ∀ r ∈ rows, bad r = false)
    (hgate : getEntry sys.tracker b = none ∨
      ∃ f, getEntry sys.tracker b = some (some f) ∧ f ≠ [] ∧
        (∀ c ∈ f, isPyDigit c = true) ∧ digitsNat f < digitsNat folder) :
    ∃ s2 : Sys,
      pipelineStep κ bad sys bucket (folder ++ '/' :: (b ++ '.' :: 'c' :: 's' :: 'v' :: []))
          uuid rows = (s2, Outcome.processed, some MainRes.success) ∧
        getEntry s2.tracker b = some (some folder) ∧ s2.tables = sys.tables := by
  have hsplit := split_arrival_key b folder hbsl2 hfd
  have hbase : pyRsplitBase (b ++ '.' :: 'c' :: 's' :: 'v' :: []) = b :=
    pyRsplitBase_concat b _ (by decide)
  have htabname : replaceCsv (b ++ '.' :: 'c' :: 's' :: 'v' :: []) = b :=
    replaceCsv_append_csv b hbdot
  have hts : pyInt folder = some ((digitsNat folder : Nat) : Int) :=
    pyInt_of_digits folder hfne hfd
  have hgate2 : getEntry sys.tracker (pyRsplitBase (b ++ '.' :: 'c' :: 's' :: 'v' :: [])) =
        none ∨
      ∃ f e, getEntry sys.tracker (pyRsplitBase (b ++ '.' :: 'c' :: 's' :: 'v' :: [])) =
          some (some f) ∧ ¬ (f = []) ∧ pyInt (noUnd f) = some e ∧
          e < ((digitsNat folder : Nat) : Int) := by
    rw [hbase]
    rcases hgate with hnone | ⟨f, hf, hfne2, hfd2, hlt⟩
    · exact Or.inl hnone
    · refine Or.inr ⟨f, ((digitsNat f : Nat) : Int), hf, hfne2, ?_, ?_⟩
      · rw [noUnd_of_digits f hfd2]
        exact pyInt_of_digits f hfne2 hfd2
      · exact_mod_cast hlt
  have hhandler := lambdaHandler_accept sys.tracker bucket _ folder _
    ((digitsNat folder : Nat) : Int) hsplit hts hgate2
  rw [hbase] at hhandler
  have hkcol : ':' ∉ folder ++ '/' :: (b ++ '.' :: 'c' :: 's' :: 'v' :: []) := by
    intro hm
    rcases List.mem_append.1 hm with h | h
    · exact absurd (hfd ':' h) (by decide)
    · rcases List.mem_cons.1 h with he | h2
      · exact absurd he (by decide)
      · exact colon_not_mem_fileName b hbcolon h2
  have hdm := deltaLoadMain_success κ bad
    ({ sys with
        queue := dedupEnq sys.queue (processNewFile bucket
          (folder ++ '/' :: (b ++ '.' :: 'c' :: 's' :: 'v' :: [])) b
          ((digitsNat folder : Nat) : Int)),
        execs := sys.execs ++ [triggerStepFunction (processNewFile bucket
          (folder ++ '/' :: (b ++ '.' :: 'c' :: 's' :: 'v' :: [])) b
          ((digitsNat folder : Nat) : Int)).path uuid] })
    bucket (folder ++ '/' :: (b ++ '.' :: 'c' :: 's' :: 'v' :: [])) folder
    (b ++ '.' :: 'c' :: 's' :: 'v' :: []) rows hbsl hbcol hkcol hsplit
    (by rw [htabname]; exact htab)
    (fun r hr => hok r (mem_cleanData rows r hr))
  have hstep := pipelineStep_dispatch κ bad sys bucket
    (folder ++ '/' :: (b ++ '.' :: 'c' :: 's' :: 'v' :: [])) uuid rows
    Outcome.processed _ _ MainRes.success hhandler (by exact hdm)
  refine ⟨_, hstep, ?_, ?_⟩
  · show getEntry (updateDynamodb sys.tracker
      (folder ++ '/' :: (b ++ '.' :: 'c' :: 's' :: 'v' :: [])) folder) b = some (some folder)
    have hud := getEntry_updateDynamodb sys.tracker
      (folder ++ '/' :: (b ++ '.' :: 'c' :: 's' :: 'v' :: [])) folder
    rw [lastSeg_of_split _ folder _ hsplit, htabname] at hud
    exact hud
  · rfl

theorem getLastD_irrel {α : Type} (l : List α) (h : l ≠ []) (d1 d2 : α) :
    l.getLastD d1 = l.getLastD d2 := by
  cases l with
  | nil => exact absurd rfl h
  | cons a l2 => rfl

theorem runSeq_accept (κ : Row → RKey) (bad : Row → Bool) (bucket b : List Char)
    (hbdot : '.' ∉ b) (hbsl2 : '/' ∉ b) (hbcolon : ':' ∉ b)
    (hbsl : '/' ∉ bucket) (hbcol : ':' ∉ bucket) :
    ∀ (arrs : List Arr) (sys : Sys),
      b ∈ sys.tables →
      (∀ a ∈ arrs, a.folder ≠ [] ∧ ∀ c ∈ a.folder, isPyDigit c = true) →
      (∀ a ∈ arrs, ∀ r ∈ a.rows, bad r = false) →
      List.Chain' (fun x y => x < y) (arrs.map (fun a => digitsNat a.folder)) →
      (getEntry sys.tracker b = none ∨
        ∃ f, getEntry sys.tracker b = some (some f) ∧ f ≠ [] ∧
          (∀ c ∈ f, isPyDigit c = true) ∧
          ∀ a0 ∈ arrs.head?, digitsNat f < digitsNat a0.folder) →
      (∀ x ∈ (runSeq κ bad bucket (b ++ '.' :: 'c' :: 's' :: 'v' :: []) sys arrs).2,
          x = (Outcome.processed, some MainRes.success)) ∧
        b ∈ (runSeq κ bad bucket (b ++ '.' :: 'c' :: 's' :: 'v' :: []) sys arrs).1.tables ∧
        (arrs ≠ [] →
          getEntry (runSeq κ bad bucket (b ++ '.' :: 'c' :: 's' :: 'v' :: []) sys arrs).1.tracker
              b = some (some ((arrs.map Arr.folder).getLastD []))) := by
  intro arrs
  induction arrs with
  | nil =>
    intro sys htab hdig hrows hchain hgate
    refine ⟨?_, ?_, ?_⟩
    · intro x hx
      cases hx
    · exact htab
    · intro hne
      exact absurd rfl hne
  | cons a rest ih =>
    intro sys htab hdig hrows hchain hgate
    have hda := hdig a (by simp)
    have hgate2 : getEntry sys.tracker b = none ∨
        ∃ f, getEntry sys.tracker b = some (some f) ∧ f ≠ [] ∧
          (∀ c ∈ f, isPyDigit c = true) ∧ digitsNat f < digitsNat a.folder := by
      rcases hgate with hnone | ⟨f, hf, hne2, hd2, hlt⟩
      · exact Or.inl hnone
      · exact Or.inr ⟨f, hf, hne2, hd2, hlt a (by simp)⟩
    obtain ⟨s2, hstep, hentry, htables⟩ :=
      pipelineStep_accept κ bad sys bucket b a.folder a.uuid a.rows hbdot hbsl2 hbcolon
        hbsl hbcol htab hda.1 hda.2 (hrows a (by simp)) hgate2
    rcases hrec : runSeq κ bad bucket (b ++ '.' :: 'c' :: 's' :: 'v' :: []) s2 rest
      with ⟨s3, res⟩
    have hcons : runSeq κ bad bucket (b ++ '.' :: 'c' :: 's' :: 'v' :: []) sys (a :: rest) =
        (s3, (Outcome.processed, some MainRes.success) :: res) := by
      simp only [runSeq, hstep, hrec]
    have hchain2 : List.Chain' (fun x y => x < y) (rest.map (fun x => digitsNat x.folder)) := by
      have := List.Chain'.tail hchain
      simpa using this
    have hgate3 : getEntry s2.tracker b = none ∨
        ∃ f, getEntry s2.tracker b = some (some f) ∧ f ≠ [] ∧
          (∀ c ∈ f, isPyDigit c = true) ∧
          ∀ a0 ∈ rest.head?, digitsNat f < digitsNat a0.folder := by
      refine Or.inr ⟨a.folder, hentry, hda.1, hda.2, ?_⟩
      intro a0 ha0
      cases rest with
      | nil => cases ha0
      | cons a2 r2 =>
        have ha0e : a2 = a0 := by simpa using ha0
        subst ha0e
        rcases List.chain'_cons.1 hchain with ⟨hlt, _⟩
        exact hlt
    have IH := ih s2 (htables ▸ htab)
      (fun x hx => hdig x (by simp [hx]))
      (fun x hx => hrows x (by simp [hx])) hchain2 hgate3
    rw [hrec] at IH
    refine ⟨?_, ?_, ?_⟩
    · intro x hx
      rw [hcons] at hx
      rcases List.mem_cons.1 hx with rfl | hx2
      · rfl
      · exact IH.1 x hx2
    · rw [hcons]
      exact IH.2.1
    · intro hne
      rw [hcons]
      cases rest with
      | nil =>
        have hnil : runSeq κ bad bucket (b ++ '.' :: 'c' :: 's' :: 'v' :: []) s2 [] =
            (s2, []) := rfl
        rw [hnil] at hrec
        injection hrec with h1 h2
        rw [← h1]
        simpa using hentry
      | cons a2 r2 =>
        have hlast : ((a :: a2 :: r2).map Arr.folder).getLastD [] =
            ((a2 :: r2).map Arr.folder).getLastD [] := by
          simp only [List.map_cons, List.getLastD_cons]
        rw [hlast]
        exact IH.2.2 (by simp)

theorem dedupEnq_idem (q : List Dispatch) (d : Dispatch) :
    dedupEnq (dedupEnq q d) d = dedupEnq q d := by
  by_cases h : q.any (fun m => decide (m.dedupId = d.dedupId)) = true
  · unfold dedupEnq
    rw [if_pos h, if_pos h]
  · unfold dedupEnq
    rw [if_neg h, if_pos (by rw [List.any_append]; simp)]

theorem dedupEnq_len (q : List Dispatch) (d : Dispatch) :
    (dedupEnq q d).length ≤ q.length + 1 := by
  unfold dedupEnq
  by_cases h : q.any (fun m => decide (m.dedupId = d.dedupId)) = true
  · rw [if_pos h]
    omega
  · rw [if_neg h]
    simp

theorem lambdaHandler_dispatch_shape (tracker : Tracker)
    (bucket key folder fileName : List Char) (ts : Int) (o : Outcome) (d : Dispatch)
    (hsplit : pySplitChar '/' key = [folder, fileName]) (hts : pyInt folder = some ts)
    (hh : lambdaHandler tracker bucket key = (o, some d)) :
    d = processNewFile bucket key (pyRsplitBase fileName) ts := by
  unfold lambdaHandler at hh
  rw [hsplit] at hh
  simp only [hts] at hh
  rcases hge : getEntry tracker (pyRsplitBase fileName) with _ | e
  · rw [hge] at hh
    simp only [] at hh
    injection hh with h1 h2
    injection h2 with h3
    exact h3.symm
  · cases e with
    | none =>
      rw [hge] at hh
      simp only [] at hh
      injection hh with h1 h2
      cases h2
    | some f =>
      rw [hge] at hh
      simp only [] at hh
      by_cases hf : f = []
      · rw [if_pos hf] at hh
        injection hh with h1 h2
        cases h2
      · rw [if_neg hf] at hh
        rcases hpi : pyInt (noUnd f) with _ | e2
        · rw [hpi] at hh
          simp only [] at hh
          injection hh with h1 h2
          cases h2
        · rw [hpi] at hh
          simp only [] at hh
          by_cases hlt : e2 < ts
          · rw [if_pos hlt] at hh
            injection hh with h1 h2
            injection h2 with h3
            exact h3.symm
          · rw [if_neg hlt] at hh
            injection hh with h1 h2
            cases h2

/-- C1: for every identity and every sequence of arrivals whose folder-name
versions strictly increase, delivered in order starting from a tracker with
no entry for that identity, the coordinator accepts every arrival, each
downstream load succeeds, after the sequence the tracking record's
last-accepted version for the identity equals the last delivered folder
name, and the accepted versions strictly increase over the sequence. -/
theorem claim_C1_increasing_versions_accepted (κ : Row → RKey) (bad : Row → Bool) (sys : Sys)
    (bucket b : List Char) (arrs : List Arr)
    (hbdot : '.' ∉ b) (hbsl2 : '/' ∉ b) (hbcolon : ':' ∉ b)
    (hbsl : '/' ∉ bucket) (hbcol : ':' ∉ bucket)
    (htab : b ∈ sys.tables)
    (hfresh : getEntry sys.tracker b = none)
    (hdig : ∀ a ∈ arrs, a.folder ≠ [] ∧ ∀ c ∈ a.folder, isPyDigit c = true)
    (hrows : ∀ a ∈ arrs, ∀ r ∈ a.rows, bad r = false)
    (hinc : List.Chain' (fun x y => x < y) (arrs.map (fun a => digitsNat a.folder)))
    (hne : arrs ≠ []) :
    (∀ x ∈ (runSeq κ bad bucket (b ++ '.' :: 'c' :: 's' :: 'v' :: []) sys arrs).2,
        x = (Outcome.processed, some MainRes.success)) ∧
      getEntry (runSeq κ bad bucket (b ++ '.' :: 'c' :: 's' :: 'v' :: []) sys arrs).1.tracker
          b = some (some ((arrs.map Arr.folder).getLastD [])) ∧
      List.Chain' (fun x y => x < y) (arrs.map (fun a => digitsNat a.folder)) := by
  have H := runSeq_accept κ bad bucket b hbdot hbsl2 hbcolon hbsl hbcol arrs sys htab hdig
    hrows hinc (Or.inl hfresh)
  exact ⟨H.1, H.2.2 hne, hinc⟩

/-- C2: an arrival whose version is less than or equal to the version
already recorded for its identity is rejected as stale: the handler
returns the normal 200 `No new action taken` outcome, no queue message is
sent, no workflow is started, no load runs, and the whole system state —
the tracking record included — is left unchanged. -/
theorem claim_C2_stale_rejected (κ : Row → RKey) (bad : Row → Bool) (sys : Sys)
    (bucket key uuid : List Char) (df : List Row) (folder fileName fb : List Char) (va vb : Int)
    (hsplit : pySplitChar '/' key = [folder, fileName])
    (hts : pyInt folder = some va)
    (hf : getEntry sys.tracker (pyRsplitBase fileName) = some (some fb))
    (hne : ¬ (fb = []))
    (hvb : pyInt (noUnd fb) = some vb)
    (hle : va ≤ vb) :
    pipelineStep κ bad sys bucket key uuid df = (sys, Outcome.noAction, none) ∧
      Outcome.noAction.statusCode = 200 :=
  ⟨pipelineStep_none κ bad sys bucket key uuid df Outcome.noAction
      (lambdaHandler_stale sys.tracker bucket key folder fileName fb va vb hsplit hts hf hne
        hvb hle),
    rfl⟩

/-- C3: for an identity with no tracking entry — the tracking-index item
absent, or the identity's key missing from it — the first arrival is
accepted and dispatched regardless of the numeric value of its version
token, and the queue receives the dispatch message. -/
theorem claim_C3_first_arrival_accepted (sys : Sys)
    (bucket key uuid folder fileName : List Char) (ts : Int)
    (hsplit : pySplitChar '/' key = [folder, fileName])
    (hts : pyInt folder = some ts)
    (habsent : sys.tracker = none ∨
      ∃ m, sys.tracker = some m ∧ lookupEntry m (pyRsplitBase fileName) = none) :
    (runLambda sys bucket key uuid).2 =
        (Outcome.processed, some (processNewFile bucket key (pyRsplitBase fileName) ts)) ∧
      (runLambda sys bucket key uuid).1.queue =
        dedupEnq sys.queue (processNewFile bucket key (pyRsplitBase fileName) ts) := by
  have hnone : getEntry sys.tracker (pyRsplitBase fileName) = none := by
    rcases habsent with h | ⟨m, hm, hl⟩
    · rw [h]
      rfl
    · rw [hm]
      exact hl
  have hh := lambdaHandler_accept sys.tracker bucket key folder fileName ts hsplit hts
    (Or.inl hnone)
  rw [runLambda_dispatch sys bucket key uuid _ _ hh]
  exact ⟨rfl, rfl⟩

/-- C4 (amended): the tracking record is advanced only after the downstream
load succeeds, not at dispatch time: the dispatch step (queue send plus
workflow start) never touches the tracker, and a run whose downstream
processing does not end in success — in particular a failed row upsert —
leaves the tracking record unchanged. -/
theorem claim_C4_tracker_advances_only_after_load (κ : Row → RKey) (bad : Row → Bool)
    (sys : Sys) (bucket key uuid : List Char) (df : List Row) :
    (runLambda sys bucket key uuid).1.tracker = sys.tracker ∧
      (∀ (s2 : Sys) (o : Outcome) (mr : MainRes),
        pipelineStep κ bad sys bucket key uuid df = (s2, o, some mr) →
        mr ≠ MainRes.success → s2.tracker = sys.tracker) := by
  refine ⟨runLambda_tracker_eq sys bucket key uuid, ?_⟩
  intro s2 o mr hps hmr
  rcases hh : lambdaHandler sys.tracker bucket key with ⟨o2, d2⟩
  cases d2 with
  | none =>
    rw [pipelineStep_none κ bad sys bucket key uuid df o2 hh] at hps
    injection hps with h1 h23
    injection h23 with h2 h3
    cases h3
  | some d =>
    rcases hdm : deltaLoadMain κ bad
        ({ sys with
            queue := dedupEnq sys.queue d,
            execs := sys.execs ++ [triggerStepFunction d.path uuid] }) d.path df
      with ⟨s9, mr9⟩
    rw [pipelineStep_dispatch κ bad sys bucket key uuid df o2 d s9 mr9 hh hdm] at hps
    injection hps with h1 h23
    injection h23 with h2 h3
    injection h3 with h4
    subst h1
    subst h4
    have hshape := deltaLoadMain_tracker_shape κ bad
      ({ sys with
          queue := dedupEnq sys.queue d,
          execs := sys.execs ++ [triggerStepFunction d.path uuid] }) d.path df
    rw [hdm] at hshape
    rcases hshape with hsucc | htr
    · exact absurd hsucc hmr
    · exact htr

/-- C4 counterexample: the claim as stated — that the tracker is advanced
in the dispatch step, so a failed downstream upsert still leaves the
tracker at the new version — is false on the code.  For the concrete
accepted arrival `200/students.csv` over a tracker holding
`students -> 100`, with every row upsert failing, the run ends in
`loadFailed`, the tracker is unchanged, and it does not hold the new
version `200`. -/
theorem claim_C4_counterexample :
    (pipelineStep idKey badAll exSys "bkt".data "200/students.csv".data "u".data
          [exRow]).2.1 = Outcome.processed ∧
      (pipelineStep idKey badAll exSys "bkt".data "200/students.csv".data "u".data
          [exRow]).2.2 = some MainRes.loadFailed ∧
      (pipelineStep idKey badAll exSys "bkt".data "200/students.csv".data "u".data
          [exRow]).1.tracker = exSys.tracker ∧
      ¬ ((getEntry (pipelineStep idKey badAll exSys "bkt".data "200/students.csv".data
            "u".data [exRow]).1.tracker "students".data) = some (some "200".data)) := by
  decide

/-- C5: the queue deduplication key of a dispatched arrival is a pure
function of the identity (base name) and the version (parsed timestamp):
any two accepted arrivals with the same identity and version — whatever
the tracker state or bucket — carry identical deduplication keys; and
redelivering the identical arrival twice before the tracker advances
enqueues at most one message, the second send being collapsed by the
deduplicating queue, so at most one effective downstream processing
results. -/
theorem claim_C5_dedup_key_pure :
    (∀ (t1 t2 : Tracker) (bk1 bk2 k1 k2 f1 n1 f2 n2 : List Char) (ts : Int)
        (o1 o2 : Outcome) (d1 d2 : Dispatch),
      pySplitChar '/' k1 = [f1, n1] → pySplitChar '/' k2 = [f2, n2] →
      pyRsplitBase n1 = pyRsplitBase n2 → pyInt f1 = some ts → pyInt f2 = some ts →
      lambdaHandler t1 bk1 k1 = (o1, some d1) → lambdaHandler t2 bk2 k2 = (o2, some d2) →
      d1.dedupId = d2.dedupId) ∧
    (∀ (sys : Sys) (bk k u1 u2 : List Char),
      ((runLambda (runLambda sys bk k u1).1 bk k u2).1).queue =
          ((runLambda sys bk k u1).1).queue ∧
        ((runLambda sys bk k u1).1).queue.length ≤ sys.queue.length + 1) := by
  constructor
  · intro t1 t2 bk1 bk2 k1 k2 f1 n1 f2 n2 ts o1 o2 d1 d2 hs1 hs2 hbase h1 h2 hh1 hh2
    rw [lambdaHandler_dispatch_shape t1 bk1 k1 f1 n1 ts o1 d1 hs1 h1 hh1,
      lambdaHandler_dispatch_shape t2 bk2 k2 f2 n2 ts o2 d2 hs2 h2 hh2]
    unfold processNewFile
    simp only [hbase]
  · intro sys bk k u1 u2
    rcases hh : lambdaHandler sys.tracker bk k with ⟨o, d⟩
    cases d with
    | none =>
      rw [runLambda_none sys bk k u1 o hh, runLambda_none sys bk k u2 o hh]
      exact ⟨rfl, Nat.le_succ _⟩
    | some d =>
      rw [runLambda_dispatch sys bk k u1 o d hh]
      have hh2 : lambdaHandler
          ({ sys with
              queue := dedupEnq sys.queue d,
              execs := sys.execs ++ [triggerStepFunction d.path u1] } : Sys).tracker bk k =
          (o, some d) := hh
      rw [runLambda_dispatch _ bk k u2 o d hh2]
      exact ⟨dedupEnq_idem sys.queue d, dedupEnq_len sys.queue d⟩

/-- C6 (amended): a row-level upsert failure on row `k` of `n` leaves
exactly the first `k-1` rows committed (each row is an independently
committed statement; the failing row's statement alone is rolled back),
rows `k..n` are absent from the table when the dataset's keys are distinct,
and the re-raised error is the database error of the failing row itself —
the row index is not part of it. -/
theorem claim_C6_partial_commit {α β : Type} [DecidableEq β] (κ : α → β) (bad : α → Bool)
    (pre : List α) (r : α) (post : List α)
    (hpre : ∀ x ∈ pre, bad x = false) (hr : bad r = true) :
    uploadToRds κ bad [] (pre ++ r :: post) = (applyRows κ [] pre, some r) ∧
      (((pre ++ r :: post).map κ).Nodup → ∀ x ∈ r :: post, x ∉ applyRows κ [] pre) := by
  refine ⟨uploadToRds_fail κ bad pre [] r post hpre hr, ?_⟩
  intro hnd x hx hmem
  have hx2 : x ∈ pre := by
    rcases mem_applyRows κ pre [] x hmem with h | h
    · cases h
    · exact h
  rw [List.map_append] at hnd
  rcases List.nodup_append.1 hnd with ⟨_, _, hdisj⟩
  exact hdisj (List.mem_map_of_mem κ hx2) (List.mem_map_of_mem κ hx)

/-- C6 counterexample: the raised error does not report the failing row
index.  The datasets `[1, 5]` (failing on its second row) and `[5]`
(failing on its first row) raise the identical error value, although their
failing indices — visible in the number of committed rows, 1 versus 0 —
differ, so the error cannot carry the index `k`. -/
theorem claim_C6_counterexample :
    (uploadToRds (fun n : Nat => n) (fun n => decide (n = 5)) [] [1, 5]).2 =
        (uploadToRds (fun n : Nat => n) (fun n => decide (n = 5)) [] [5]).2 ∧
      (uploadToRds (fun n : Nat => n) (fun n => decide (n = 5)) [] [1, 5]).1.length = 1 ∧
      (uploadToRds (fun n : Nat => n) (fun n => decide (n = 5)) [] [5]).1.length = 0 := by
  decide

/-- C7: against a table whose keys are pairwise distinct (the uniqueness
constraint), applying the row-by-row insert-with-update-on-duplicate-key
upsert of a dataset twice leaves the table exactly as applying it once —
the conflict policy is idempotent.  (The proof does not even need the
distinctness hypothesis; it is kept because the claim assumes a table with
a defined uniqueness constraint.) -/
theorem claim_C7_upsert_idempotent {α β : Type} [DecidableEq β] (κ : α → β) (t rs : List α)
    (_hud : (t.map κ).Nodup) :
    applyRows κ (applyRows κ t rs) rs = applyRows κ t rs :=
  applyRows_twice κ rs t

/-- C8 (amended): every accepted arrival starts exactly one workflow
execution; its generated name is the fixed prefix `Execution-`, the file
path's last segment (the file name, not the identity-version pair), and
the fresh random suffix, and its input carries the file path. -/
theorem claim_C8_one_execution (sys : Sys) (bucket key uuid : List Char) (o : Outcome)
    (d : Dispatch) (hh : lambdaHandler sys.tracker bucket key = (o, some d)) :
    ((runLambda sys bucket key uuid).1).execs =
      sys.execs ++ [("Execution-".data ++ lastSeg d.path ++ '-' :: uuid, d.path)] := by
  rw [runLambda_dispatch sys bucket key uuid o d hh]
  rfl

/-- C8 counterexample: the execution name is not composed of the identity
and the version.  For the accepted arrival `100/students.csv` with suffix
`u`, the single started execution is named `Execution-students.csv-u`: the
version token `100` does not occur anywhere in the name. -/
theorem claim_C8_counterexample :
    ((runLambda exSysEmpty "bkt".data "100/students.csv".data "u".data).1).execs =
        [("Execution-students.csv-u".data, "s3://bkt/100/students.csv".data)] ∧
      occursIn "100".data "Execution-students.csv-u".data = false := by
  decide

/-- C9: schema inference classifies each column by its sample value — a
nonempty all-digit string (a non-negative integer literal) gives INTEGER;
otherwise a value accepted by `float` gives FLOAT; otherwise the bounded
VARCHAR(255); and the sample row `id=12, name=Ann, gpa=3.9` yields the
schema `[id:INTEGER, name:VARCHAR(255), gpa:FLOAT]` in column order. -/
theorem claim_C9_schema_inference :
    (∀ v : List Char, v ≠ [] → (∀ c ∈ v, isPyDigit c = true) →
        inferType v = SqlType.INTEGER) ∧
      (∀ v : List Char, pyIsDigitStr v = false → pyFloatOk v = true →
        inferType v = SqlType.FLOAT) ∧
      (∀ v : List Char, pyIsDigitStr v = false → pyFloatOk v = false →
        inferType v = SqlType.VARCHAR255) ∧
      analyzeDatabaseFile ["id".data, "name".data, "gpa".data]
          ["12".data, "Ann".data, "3.9".data] =
        [("id".data, SqlType.INTEGER), ("name".data, SqlType.VARCHAR255),
          ("gpa".data, SqlType.FLOAT)] := by
  refine ⟨?_, ?_, ?_, by decide⟩
  · intro v hne hd
    have hds : pyIsDigitStr v = true := by
      unfold pyIsDigitStr
      simp only [List.all_eq_true, Bool.and_eq_true, decide_eq_true_eq]
      exact ⟨hne, hd⟩
    simp [inferType, hds]
  · intro v h1 h2
    simp [inferType, h1, h2]
  · intro v h1 h2
    simp [inferType, h1, h2]

/-- C10: the coordinator accepts an object key only when it splits into
exactly two `/`-separated segments whose folder segment parses as an
integer: a key with zero or more than one `/`, or with a non-integer
folder name, yields the status-400 parse-error response, and the system —
queue, workflow executions and tracker — is left completely unchanged. -/
theorem claim_C10_parse_gate (κ : Row → RKey) (bad : Row → Bool) (sys : Sys)
    (bucket key uuid : List Char) (df : List Row)
    (h : ¬ (key.count '/' = 1) ∨
      ∃ folder fileName, pySplitChar '/' key = [folder, fileName] ∧ pyInt folder = none) :
    pipelineStep κ bad sys bucket key uuid df = (sys, Outcome.parseError, none) ∧
      Outcome.parseError.statusCode = 400 := by
  refine ⟨?_, rfl⟩
  rcases h with hcnt | ⟨folder, fileName, hsplit, hint⟩
  · refine pipelineStep_none κ bad sys bucket key uuid df Outcome.parseError
      (lambdaHandler_parse_len sys.tracker bucket key ?_)
    rw [pySplitChar_length]
    intro he
    apply hcnt
    omega
  · exact pipelineStep_none κ bad sys bucket key uuid df Outcome.parseError
      (lambdaHandler_parse_int sys.tracker bucket key folder fileName hsplit hint)

theorem claim_C1_witness :
    (∀ x ∈ (runSeq idKey badNone "bkt".data
          ("students".data ++ '.' :: 'c' :: 's' :: 'v' :: []) exSysEmpty exArrs).2,
        x = (Outcome.processed, some MainRes.success)) ∧
      getEntry (runSeq idKey badNone "bkt".data
            ("students".data ++ '.' :: 'c' :: 's' :: 'v' :: []) exSysEmpty exArrs).1.tracker
          "students".data = some (some ((exArrs.map Arr.folder).getLastD [])) ∧
      List.Chain' (fun x y => x < y) (exArrs.map (fun a => digitsNat a.folder)) :=
  claim_C1_increasing_versions_accepted idKey badNone exSysEmpty "bkt".data "students".data
    exArrs (by decide) (by decide) (by decide) (by decide) (by decide) (by decide) (by decide)
    (by decide) (by decide)
    (List.chain'_cons.2 ⟨by decide, List.chain'_singleton _⟩) (by simp [exArrs])

theorem claim_C2_witness :
    pipelineStep idKey badNone exSys "bkt".data "99/students.csv".data "u".data [exRow] =
        (exSys, Outcome.noAction, none) ∧
      Outcome.noAction.statusCode = 200 :=
  claim_C2_stale_rejected idKey badNone exSys "bkt".data "99/students.csv".data "u".data
    [exRow] "99".data "students.csv".data "100".data 99 100 (by decide) (by decide)
    (by decide) (by decide) (by decide) (by decide)

theorem claim_C3_witness :
    (runLambda exSysEmpty "bkt".data "0/students.csv".data "u".data).2 =
        (Outcome.processed, some (processNewFile "bkt".data "0/students.csv".data
          (pyRsplitBase "students.csv".data) 0)) ∧
      (runLambda exSysEmpty "bkt".data "0/students.csv".data "u".data).1.queue =
        dedupEnq exSysEmpty.queue (processNewFile "bkt".data "0/students.csv".data
          (pyRsplitBase "students.csv".data) 0) :=
  claim_C3_first_arrival_accepted exSysEmpty "bkt".data "0/students.csv".data "u".data
    "0".data "students.csv".data 0 (by decide) (by decide) (Or.inl rfl)

theorem claim_C4_witness :
    ((pipelineStep idKey badAll exSys "bkt".data "300/students.csv".data "u".data
        [exRow]).1).tracker = exSys.tracker :=
  (claim_C4_tracker_advances_only_after_load idKey badAll exSys "bkt".data
      "300/students.csv".data "u".data [exRow]).2
    (pipelineStep idKey badAll exSys "bkt".data "300/students.csv".data "u".data [exRow]).1
    (pipelineStep idKey badAll exSys "bkt".data "300/students.csv".data "u".data [exRow]).2.1
    MainRes.loadFailed (by decide) (by decide)

theorem claim_C5_witness :
    (processNewFile "b1".data "100/students.csv".data
        (pyRsplitBase "students.csv".data) 100).dedupId =
      (processNewFile "b2".data "100/students.csv".data
        (pyRsplitBase "students.csv".data) 100).dedupId :=
  claim_C5_dedup_key_pure.1 none none "b1".data "b2".data "100/students.csv".data
    "100/students.csv".data "100".data "students.csv".data "100".data "students.csv".data
    100 Outcome.processed Outcome.processed
    (processNewFile "b1".data "100/students.csv".data (pyRsplitBase "students.csv".data) 100)
    (processNewFile "b2".data "100/students.csv".data (pyRsplitBase "students.csv".data) 100)
    (by decide) (by decide) rfl (by decide) (by decide) (by decide) (by decide)

theorem claim_C6_witness :
    uploadToRds (fun n : Nat => n) (fun n => decide (n = 5)) [] ([1] ++ 5 :: [9]) =
      (applyRows (fun n : Nat => n) [] [1], some 5) :=
  (claim_C6_partial_commit (fun n : Nat => n) (fun n => decide (n = 5)) [1] 5 [9]
    (by decide) (by decide)).1

theorem claim_C7_witness :
    applyRows (fun n : Nat => n % 10)
        (applyRows (fun n : Nat => n % 10) [1, 2] [12, 3]) [12, 3] =
      applyRows (fun n : Nat => n % 10) [1, 2] [12, 3] :=
  claim_C7_upsert_idempotent (fun n : Nat => n % 10) [1, 2] [12, 3] (by decide)

theorem claim_C8_witness :
    ((runLambda exSys "bkt".data "200/students.csv".data "u".data).1).execs =
      exSys.execs ++ [("Execution-".data ++
          lastSeg (processNewFile "bkt".data "200/students.csv".data
            (pyRsplitBase "students.csv".data) 200).path ++ '-' :: "u".data,
        (processNewFile "bkt".data "200/students.csv".data
          (pyRsplitBase "students.csv".data) 200).path)] :=
  claim_C8_one_execution exSys "bkt".data "200/students.csv".data "u".data Outcome.processed
    (processNewFile "bkt".data "200/students.csv".data (pyRsplitBase "students.csv".data) 200)
    (by decide)

theorem claim_C9_witness : inferType "12".data = SqlType.INTEGER :=
  claim_C9_schema_inference.1 "12".data (by decide) (by decide)

theorem claim_C10_witness :
    pipelineStep idKey badNone exSys "bkt".data "a/b/c.csv".data "u".data [exRow] =
        (exSys, Outcome.parseError, none) ∧
      Outcome.parseError.statusCode = 400 :=
  claim_C10_parse_gate idKey badNone exSys "bkt".data "a/b/c.csv".data "u".data [exRow]
    (Or.inl (by decide))
